import Mathlib

/-!
Shallow embedding of the `bar` progress-indicator tokenizer and token
rendering (source file `tokens.go` of the `bar` package), together with
theorems checking the claims of the specification about it.

The tokenizer scans a format string (modelled as a `List Char`, one entry
per rune) and a list of registered custom-verb names, producing a list of
tokens.  Token rendering evaluates each token against a snapshot of the
progress state.  The Go `float64` arithmetic in the render path is modelled
by exact rationals (`ℚ`); the spots where this matters are commented at
the corresponding definitions.
-/

set_option autoImplicit false

namespace Bar

/-- The closed token set of `tokens.go` (`spaceToken`, `barToken`,
`percentToken`, `rateToken`, `etaToken`, `customVerbToken`, `literalToken`),
embedded as one inductive, as §9 of the spec suggests. -/
inductive Token where
  | space
  | bar
  | percent
  | rate
  | eta
  | customVerb (verb : String)
  | literal (content : String)
deriving DecidableEq

/-- Modelled from the spec: the progress-state snapshot (the Go `Bar` struct,
which lives outside `tokens.go`).  It exposes current and total count, the
display width, the five bar glyph strings (the Go field `end` is renamed
`endCap`, `end` being a Lean keyword), the numeric rate, the rendered ETA
string, and the custom key/value entries (each value already rendered via
its `String()` method).  Only the fields read by `tokens.go` are modelled. -/
structure BarState where
  progress : Nat
  total : Nat
  width : Nat
  start : String
  complete : String
  head : String
  incomplete : String
  endCap : String
  rate : ℚ
  eta : String
  context : List (String × String)

/-- Modelled from the spec: fraction-complete is the current count divided by
the total count, clamped to `[0, 1]` (glossary entry "Fraction-complete";
the Go method `Bar.prog` is outside `tokens.go`).  Division by a zero total
yields `0` in `ℚ`, keeping the value in range. -/
def BarState.prog (b : BarState) : ℚ :=
  max 0 (min 1 ((b.progress : ℚ) / (b.total : ℚ)))

/-- Separator peek (`readSeparator`): looks one position ahead and reports a
separator when the stream is exhausted or the next character is a space or
the action trigger.  (Go peeks one byte; for the two ASCII separators a
byte-level and a char-level check agree, since the first byte of a
multi-byte rune matches neither.) -/
def readSeparator : List Char → Bool
  | [] => true
  | c :: _ => c == ' ' || c == ':'

/-- The custom-verb scan inside `tokenFromString`: linear walk over the
registered names, first name equal to `s` wins. -/
def findVerb (s : String) : List String → Option String
  | [] => none
  | verb :: rest => if s = verb then some verb else findVerb s rest

/-- Verb recognition (`tokenFromString`): standard verbs are checked first,
then the custom list is scanned in order. -/
def tokenFromString (s : String) (customVerbs : List String) : Option Token :=
  if s = "bar" then some Token.bar
  else if s = "percent" then some Token.percent
  else if s = "rate" then some Token.rate
  else if s = "eta" then some Token.eta
  else
    match findVerb s customVerbs with
    | some verb => some (Token.customVerb verb)
    | none => none

/-- Action mode (`readAction`): accumulate candidate runes after the trigger; after each
rune, try to match a verb; at a separator, re-check once more (as the Go
code does) and otherwise demote to a literal `":" ++ candidate`.  A `none`
result models `ReadRune` failing with `io.EOF`, which the caller
(`tokenize`) treats as end of the scan. -/
def readAction (customVerbs : List String) (verb : String) :
    List Char → Option (Token × List Char)
  | [] => none
  | c :: rest =>
    let v := verb.push c
    match tokenFromString v customVerbs with
    | some t => some (t, rest)
    | none =>
      if readSeparator rest then
        match tokenFromString v customVerbs with
        | some t => some (t, rest)
        | none => some (Token.literal (":" ++ v), rest)
      else readAction customVerbs v rest

/-- Literal mode (`readLiteral`): starting from the already-consumed first rune (held in
`value`), keep consuming until the peek sees a separator.  The Go error
branch after `ReadRune` is unreachable: a failing peek already returned. -/
def readLiteral (value : String) : List Char → String × List Char
  | [] => (value, [])
  | c :: rest =>
    if readSeparator (c :: rest) then (value, c :: rest)
    else readLiteral (value.push c) rest

/-- Token dispatch (`nextToken`): branch on the first rune — space token,
action mode, or literal mode.  A `none` result models an error from
`ReadRune` (only `io.EOF` can occur on a string reader). -/
def nextToken (customVerbs : List String) : List Char → Option (Token × List Char)
  | [] => none
  | c :: rest =>
    if c == ' ' then some (Token.space, rest)
    else if c == ':' then readAction customVerbs "" rest
    else
      let r := readLiteral (String.singleton c) rest
      some (Token.literal r.1, r.2)

/-- The `tokenize` loop: append tokens until `nextToken` reports an error
(`io.EOF` included), then return what was accumulated.  The fuel argument
only bounds the recursion: every emitted token consumes at least one rune,
so `length + 1` steps always reach the end of the input. -/
def tokenizeFuel (customVerbs : List String) : Nat → List Char → List Token
  | 0, _ => []
  | fuel + 1, s =>
    match nextToken customVerbs s with
    | none => []
    | some (t, s2) => t :: tokenizeFuel customVerbs fuel s2

/-- `tokenize`: scan a whole format string. -/
def tokenize (f : String) (customVerbs : List String) : List Token :=
  tokenizeFuel customVerbs (f.data.length + 1) f.data

/-- Embeds `strings.Repeat`. -/
def strRepeat (s : String) : Nat → String
  | 0 => ""
  | n + 1 => s ++ strRepeat s n

/-- The Go `fmt` verb `%.1f` applied to a nonnegative value, modelled over
exact rationals: round to the nearest tenth and print one digit after the
point.  (`fmt` rounds the binary `float64` value; away from exact midpoints
— every input used in this development — the two agree.) -/
def formatF1 (q : ℚ) : String :=
  let n : Nat := (round (q * 10)).toNat
  toString (n / 10) ++ "." ++ toString (n % 10)

/-- The `print` methods of the seven token kinds.  The second component
collects the diagnostic lines the Go code writes to `os.Stderr` (only the
unresolved-custom-verb branch writes one).  In the bar arm, Go computes
`p := int(prog * float64(width))` (truncation; `prog ≥ 0` makes it a
floor), repeats the completed glyph `int(math.Max(0, p-1))` times and the
incomplete glyph `width - p` times; since `prog ≤ 1` gives `p ≤ width`,
the total `Int.toNat` agrees with Go (whose `strings.Repeat` would fault
on a negative count). -/
def Token.print : Token → BarState → String × List String
  | Token.space, _ => (" ", [])
  | Token.bar, b =>
    let p : Int := Int.floor (b.prog * (b.width : ℚ))
    (b.start ++ strRepeat b.complete (max 0 (p - 1)).toNat ++ b.head
      ++ strRepeat b.incomplete ((b.width : Int) - p).toNat ++ b.endCap, [])
  | Token.percent, b => (formatF1 (b.prog * 100) ++ "%", [])
  | Token.rate, b => (formatF1 b.rate, [])
  | Token.eta, b => (b.eta, [])
  | Token.customVerb v, b =>
    match b.context.find? (fun d => d.1 == v) with
    | some d => (d.2, [])
    | none => (v, ["tokenize: only use `:` for custom verbs"])
  | Token.literal c, _ => (c, [])

/-- Rendering of a compiled token sequence: the render output of each token
is concatenated in order; diagnostics accumulate on the side and never stop
the remaining tokens from rendering. -/
def renderTokens : List Token → BarState → String × List String
  | [], _ => ("", [])
  | t :: ts, b =>
    let r := t.print b
    let rest := renderTokens ts b
    (r.1 ++ rest.1, r.2 ++ rest.2)

/-! ### Helper lemmas about the tokenizer -/

/-- Verb recognition never yields a literal token. -/
theorem tokenFromString_ne_literal (s : String) (cv : List String) (c : String) :
    tokenFromString s cv ≠ some (Token.literal c) := by
  intro h
  unfold tokenFromString at h
  split_ifs at h <;> try simp_all
  split at h <;> simp_all

/-- A name absent from the custom list is not found by the linear scan. -/
theorem findVerb_eq_none (s : String) : ∀ l : List String, s ∉ l → findVerb s l = none := by
  intro l
  induction l with
  | nil => intro; rfl
  | cons a t ih =>
    intro h
    rw [List.mem_cons, not_or] at h
    unfold findVerb
    rw [if_neg h.1]
    exact ih h.2

/-- A candidate that is neither a standard verb nor a registered custom verb
is not recognized. -/
theorem tokenFromString_eq_none (s : String) (cv : List String) (h1 : s ≠ "bar")
    (h2 : s ≠ "percent") (h3 : s ≠ "rate") (h4 : s ≠ "eta") (h5 : s ∉ cv) :
    tokenFromString s cv = none := by
  unfold tokenFromString
  rw [if_neg h1, if_neg h2, if_neg h3, if_neg h4, findVerb_eq_none s cv h5]

/-- Prepending the trigger to two candidates is injective. -/
theorem colon_append_inj (a b : String) (h : (":" ++ a : String) = ":" ++ b) : a = b := by
  have hd : (":" ++ a).data = (":" ++ b).data := by rw [h]
  rw [String.data_append, String.data_append] at hd
  exact String.ext (by simpa using hd)

/-- A literal produced by action mode is the trigger plus a candidate that
verb recognition rejected. -/
theorem readAction_literal (cv : List String) :
    ∀ (s : List Char) (verb c : String) (s2 : List Char),
      readAction cv verb s = some (Token.literal c, s2) →
      ∃ w, c = ":" ++ w ∧ tokenFromString w cv = none := by
  intro s
  induction s with
  | nil => intro verb c s2 h; simp [readAction] at h
  | cons ch rest ih =>
    intro verb c s2 h
    simp only [readAction] at h
    cases h1 : tokenFromString (verb.push ch) cv with
    | some t =>
      rw [h1] at h
      have h2 : some (t, rest) = some (Token.literal c, s2) := h
      simp only [Option.some.injEq, Prod.mk.injEq] at h2
      exact absurd (h2.1 ▸ h1) (tokenFromString_ne_literal _ _ _)
    | none =>
      rw [h1] at h
      by_cases hsep : readSeparator rest = true
      · rw [if_pos hsep] at h
        have h2 : some (Token.literal (":" ++ verb.push ch), rest) =
            some (Token.literal c, s2) := h
        simp only [Option.some.injEq, Prod.mk.injEq, Token.literal.injEq] at h2
        exact ⟨verb.push ch, h2.1.symm, h1⟩
      · rw [if_neg hsep] at h
        exact ih (verb.push ch) c s2 h

/-- Literal mode only ever appends to the accumulated value. -/
theorem readLiteral_data (s : List Char) :
    ∀ value : String, ∃ w, ((readLiteral value s).1).data = value.data ++ w := by
  induction s with
  | nil => intro value; exact ⟨[], by simp [readLiteral]⟩
  | cons c rest ih =>
    intro value
    unfold readLiteral
    by_cases hsep : readSeparator (c :: rest) = true
    · rw [if_pos hsep]
      exact ⟨[], by simp⟩
    · rw [if_neg hsep]
      obtain ⟨w, hw⟩ := ih (value.push c)
      refine ⟨c :: w, ?_⟩
      rw [hw, String.data_push]
      simp

/-- A literal token emitted by `nextToken` that starts with the trigger has
an unrecognized remainder. -/
theorem nextToken_literal (cv : List String) (s : List Char) (c : String) (s2 : List Char)
    (h : nextToken cv s = some (Token.literal c, s2)) (v : String) (hv : c = ":" ++ v) :
    tokenFromString v cv = none := by
  match s with
  | [] => simp [nextToken] at h
  | c0 :: rest =>
    simp only [nextToken] at h
    by_cases h0 : (c0 == ' ') = true
    · rw [if_pos h0] at h
      simp at h
    · rw [if_neg h0] at h
      by_cases h1 : (c0 == ':') = true
      · rw [if_pos h1] at h
        obtain ⟨w, hw, hnone⟩ := readAction_literal cv rest "" c s2 h
        have : v = w := colon_append_inj v w (hv ▸ hw)
        exact this ▸ hnone
      · rw [if_neg h1] at h
        simp only [Option.some.injEq, Prod.mk.injEq, Token.literal.injEq] at h
        obtain ⟨w, hw⟩ := readLiteral_data rest (String.singleton c0)
        rw [h.1] at hw
        rw [hv, String.data_append] at hw
        simp [String.singleton] at hw
        simp at h1
        exact absurd hw.1.symm h1

/-- Any literal with a trigger at its head that the tokenizer loop emits has
an unrecognized remainder, whatever the fuel. -/
theorem tokenizeFuel_literal (cv : List String) :
    ∀ (fuel : Nat) (s : List Char) (c : String),
      Token.literal c ∈ tokenizeFuel cv fuel s →
      ∀ v, c = ":" ++ v → tokenFromString v cv = none := by
  intro fuel
  induction fuel with
  | zero => intro s c h; simp [tokenizeFuel] at h
  | succ n ih =>
    intro s c h v hv
    simp only [tokenizeFuel] at h
    cases hnt : nextToken cv s with
    | none => rw [hnt] at h; simp at h
    | some ts2 =>
      obtain ⟨t, s2⟩ := ts2
      rw [hnt] at h
      simp only [List.mem_cons] at h
      cases h with
      | inl he => exact nextToken_literal cv s c s2 (he ▸ hnt) v hv
      | inr hm => exact ih s2 c hm v hv

/-! ### Helper lemmas about rendering -/

/-- Fraction-complete is never negative. -/
theorem prog_nonneg (b : BarState) : 0 ≤ b.prog := le_max_left 0 _

/-- Fraction-complete never exceeds one. -/
theorem prog_le_one (b : BarState) : b.prog ≤ 1 := max_le (by norm_num) (min_le_left 1 _)

/-- The floored bar position stays within the display width. -/
theorem floor_prog_le_width (b : BarState) :
    ⌊b.prog * (b.width : ℚ)⌋ ≤ (b.width : Int) := by
  have h1 : b.prog * (b.width : ℚ) ≤ (b.width : ℚ) := by
    have h2 := mul_le_mul_of_nonneg_right (prog_le_one b)
      (show (0 : ℚ) ≤ (b.width : ℚ) by positivity)
    simpa using h2
  have h3 := Int.floor_le_floor h1
  rwa [Int.floor_natCast] at h3

/-- The floored bar position is never negative. -/
theorem floor_prog_nonneg (b : BarState) : 0 ≤ ⌊b.prog * (b.width : ℚ)⌋ :=
  Int.floor_nonneg.mpr (mul_nonneg (prog_nonneg b) (by positivity))

/-- Length of a repeated glyph string. -/
theorem strRepeat_length (s : String) : ∀ n : Nat, (strRepeat s n).length = n * s.length := by
  intro n
  induction n with
  | zero => simp [strRepeat]
  | succ m ih =>
    simp only [strRepeat, String.length_append, ih]
    ring

/-- The bar arm of `Token.print` agrees with the formula of the spec:
`start + fill(complete, width_complete - 1) + head +
fill(incomplete, width - width_complete) + end` with
`width_complete = floor(fraction_complete * width)` and natural subtraction
(so `width_complete - 1` is floored at zero). -/
theorem barPrint_formula (b : BarState) :
    (Token.bar.print b).1 =
      b.start ++ strRepeat b.complete (⌊b.prog * (b.width : ℚ)⌋₊ - 1) ++ b.head
        ++ strRepeat b.incomplete (b.width - ⌊b.prog * (b.width : ℚ)⌋₊) ++ b.endCap := by
  have h0 : 0 ≤ ⌊b.prog * (b.width : ℚ)⌋ := floor_prog_nonneg b
  have e1 : (max 0 (⌊b.prog * (b.width : ℚ)⌋ - 1)).toNat = ⌊b.prog * (b.width : ℚ)⌋₊ - 1 := by
    rw [← Int.floor_toNat]
    rcases le_or_lt 1 ⌊b.prog * (b.width : ℚ)⌋ with h | h
    · rw [max_eq_right (by omega : (0 : Int) ≤ ⌊b.prog * (b.width : ℚ)⌋ - 1)]
      omega
    · rw [max_eq_left (by omega : ⌊b.prog * (b.width : ℚ)⌋ - 1 ≤ 0)]
      omega
  have e2 : ((b.width : Int) - ⌊b.prog * (b.width : ℚ)⌋).toNat
      = b.width - ⌊b.prog * (b.width : ℚ)⌋₊ := by
    rw [← Int.floor_toNat]
    omega
  simp only [Token.print]
  rw [e1, e2]

/-- The length of the rendered bar, term by term. -/
theorem barPrint_length (b : BarState) :
    ((Token.bar.print b).1).length =
      b.start.length + (max 0 (⌊b.prog * (b.width : ℚ)⌋ - 1)).toNat * b.complete.length
        + b.head.length
        + ((b.width : Int) - ⌊b.prog * (b.width : ℚ)⌋).toNat * b.incomplete.length
        + b.endCap.length := by
  simp only [Token.print, String.length_append, strRepeat_length]

/-! ### Sample progress states used by the concrete claims -/

/-- A ten-wide bar at zero progress with one-character glyphs. -/
def sampleBar0 : BarState :=
  { progress := 0, total := 10, width := 10, start := "[", complete := "#",
    head := ">", incomplete := "-", endCap := "]", rate := 0, eta := "",
    context := [] }

/-- The same bar at full progress. -/
def sampleBar1 : BarState := { sampleBar0 with progress := 10 }

/-- The same bar at three-tenths progress. -/
def sampleBar3 : BarState := { sampleBar0 with progress := 3 }

/-- A state whose fraction-complete is exactly `0.2567`. -/
def samplePercent : BarState := { sampleBar0 with progress := 2567, total := 10000 }

/-- A state with two entries for `foo`; the first should win. -/
def stateWithFoo : BarState := { sampleBar0 with context := [("foo", "42"), ("foo", "99")] }

/-- A state with no entry for `foo`. -/
def stateWithoutFoo : BarState := { sampleBar0 with context := [("other", "1")] }

/-! ### Claim theorems

Concrete evaluations of the rational render path need the sealed core
rational operations to unfold during elaboration; the attribute below
restores their default reducibility for this section only. -/

section ClaimTheorems

attribute [local semireducible] Rat.mul Rat.add Rat.inv Rat.sub

/-- C1: the claim says an action trigger at end-of-input yields a
`Literal ":"` token, and the doc comment of `readAction` promises a literal
when the input runs out; the code instead hits the `io.EOF` error path on
the first read after the trigger, and `tokenize` silently drops the
trailing trigger: `":"` tokenizes to the empty sequence, and `"a:"` to
just `[Literal "a"]`. -/
theorem trailing_trigger_dropped :
    tokenize ":" [] = [] ∧ tokenize "a:" [] = [Token.literal "a"] := by decide

/-- C2 counterexample: the claim quantifies over every custom-verb list,
but a registered custom verb that is a proper prefix of `bar` is matched
while the candidate is still growing, so `":bar"` with custom list `["b"]`
does not tokenize to `[Bar]`. -/
theorem custom_prefix_preempts :
    tokenize ":bar" ["b"] = [Token.customVerb "b", Token.literal "ar"] ∧
      tokenize ":bar" ["b"] ≠ [Token.bar] := by decide

/-- C2 (amended): for every custom-verb list containing neither `"b"` nor
`"ba"` (the proper nonempty prefixes of `"bar"`), tokenizing `":bar"`
yields exactly `[Bar]`; standard verbs are checked before custom verbs at
every step, so in particular a custom verb named `"bar"` never produces a
`CustomVerb` token. -/
theorem tokenize_colon_bar_standard_wins (cv : List String)
    (hb : "b" ∉ cv) (hba : "ba" ∉ cv) : tokenize ":bar" cv = [Token.bar] := by
  have t1 : tokenFromString ("".push 'b') cv = none := by
    rw [show ("".push 'b' : String) = "b" from rfl]
    exact tokenFromString_eq_none _ _ (by decide) (by decide) (by decide) (by decide) hb
  have t2 : tokenFromString (("".push 'b').push 'a') cv = none := by
    rw [show (("".push 'b').push 'a' : String) = "ba" from rfl]
    exact tokenFromString_eq_none _ _ (by decide) (by decide) (by decide) (by decide) hba
  have ra : readAction cv "" ['b', 'a', 'r'] = some (Token.bar, []) := by
    simp only [readAction]
    rw [t1, t2]
    rfl
  have hnt : nextToken cv [':', 'b', 'a', 'r'] = some (Token.bar, []) :=
    (rfl : nextToken cv [':', 'b', 'a', 'r'] = readAction cv "" ['b', 'a', 'r']).trans ra
  show tokenizeFuel cv 5 [':', 'b', 'a', 'r'] = [Token.bar]
  rw [show (5 : Nat) = 4 + 1 from rfl]
  simp only [tokenizeFuel]
  rw [hnt]
  rfl

/-- Witness for C2 (amended) at the custom list `["bar"]`. -/
theorem tokenize_colon_bar_standard_wins_witness :
    (("b" : String) ∉ (["bar"] : List String) ∧ ("ba" : String) ∉ (["bar"] : List String)) ∧
      tokenize ":bar" ["bar"] = [Token.bar] :=
  ⟨⟨by decide, by decide⟩, tokenize_colon_bar_standard_wins ["bar"] (by decide) (by decide)⟩

/-- C3: `":foo"` with registered custom verb `foo` compiles to a
`CustomVerb` token; rendering resolves it against the custom entries with
the first match winning, and an unresolved verb renders as its own name
with a diagnostic on the error channel while the remaining tokens still
render. -/
theorem custom_verb_resolution :
    tokenize ":foo" ["foo"] = [Token.customVerb "foo"] ∧
      (Token.customVerb "foo").print stateWithFoo = ("42", []) ∧
      (Token.customVerb "foo").print stateWithoutFoo =
        ("foo", ["tokenize: only use `:` for custom verbs"]) ∧
      renderTokens [Token.customVerb "foo", Token.literal "X"] stateWithoutFoo =
        ("fooX", ["tokenize: only use `:` for custom verbs"]) := by decide

/-- C4 counterexample: at fraction-complete zero the completed fill is
empty but the incomplete fill still spans the whole width next to the head
glyph, so the bar is one glyph longer than at any started fraction: with
width ten and unit glyphs the lengths are 13 versus 12. -/
theorem bar_length_varies_at_zero :
    (Token.bar.print sampleBar0).1.length ≠ (Token.bar.print sampleBar1).1.length := by decide

/-- C4 (amended): for a fixed width and fixed glyph set with completed and
incomplete fill glyphs of equal length, the rendered bar has the same total
length for all fraction-complete values whose floored bar position is at
least one; only fractions below `1 / width` (position zero) make the bar
longer by one fill glyph. -/
theorem bar_length_constant_when_started (b1 b2 : BarState)
    (hstart : b1.start = b2.start) (hcomp : b1.complete = b2.complete)
    (hhead : b1.head = b2.head) (hinc : b1.incomplete = b2.incomplete)
    (hend : b1.endCap = b2.endCap) (hw : b1.width = b2.width)
    (hglyph : b2.complete.length = b2.incomplete.length)
    (h1 : 1 ≤ ⌊b1.prog * (b1.width : ℚ)⌋) (h2 : 1 ≤ ⌊b2.prog * (b2.width : ℚ)⌋) :
    (Token.bar.print b1).1.length = (Token.bar.print b2).1.length := by
  have hb1 : ⌊b1.prog * (b1.width : ℚ)⌋ ≤ (b1.width : Int) := floor_prog_le_width b1
  have hb2 : ⌊b2.prog * (b2.width : ℚ)⌋ ≤ (b2.width : Int) := floor_prog_le_width b2
  rw [barPrint_length, barPrint_length, hstart, hcomp, hhead, hinc, hend, hw]
  rw [hw] at h1 hb1
  rw [← hglyph]
  have key : ∀ p : Int, 1 ≤ p → p ≤ (b2.width : Int) →
      (max 0 (p - 1)).toNat * b2.complete.length
        + ((b2.width : Int) - p).toNat * b2.complete.length
        = (b2.width - 1) * b2.complete.length := by
    intro p hp hpw
    rw [← Nat.add_mul]
    congr 1
    rw [max_eq_right (by omega : (0 : Int) ≤ p - 1)]
    omega
  have e1 : ∀ a c : Nat,
      b2.start.length + a * b2.complete.length + b2.head.length
          + c * b2.complete.length + b2.endCap.length
        = b2.start.length + b2.head.length + b2.endCap.length
          + (a * b2.complete.length + c * b2.complete.length) := by
    intro a c
    ring
  rw [e1, e1, key _ h1 hb1, key _ h2 hb2]

/-- Witness for C4 (amended) at three-tenths versus full progress. -/
theorem bar_length_constant_when_started_witness :
    (1 ≤ ⌊sampleBar3.prog * (sampleBar3.width : ℚ)⌋
        ∧ 1 ≤ ⌊sampleBar1.prog * (sampleBar1.width : ℚ)⌋) ∧
      (Token.bar.print sampleBar3).1.length = (Token.bar.print sampleBar1).1.length :=
  ⟨⟨by decide, by decide⟩,
    bar_length_constant_when_started sampleBar3 sampleBar1 rfl rfl rfl rfl rfl rfl rfl
      (by decide) (by decide)⟩

/-- C5 counterexample: a recognized verb name that sits between two
separators without an action trigger becomes a `Literal` holding exactly
that verb name — verb matching only happens after the trigger, so the
claimed invariant fails on `" bar"`. -/
theorem literal_equals_verb_name :
    tokenize " bar" [] = [Token.space, Token.literal "bar"] ∧
      tokenFromString "bar" [] = some Token.bar := by decide

/-- C5 (amended): every `Literal` token produced from an action sequence —
one whose content is the trigger followed by the accumulated candidate —
has a candidate that matches no standard or custom verb; `Literal` tokens
without the leading trigger can spell verb names. -/
theorem action_literal_unrecognized (f : String) (cv : List String) (c : String)
    (hmem : Token.literal c ∈ tokenize f cv) (v : String) (hv : c = ":" ++ v) :
    tokenFromString v cv = none :=
  tokenizeFuel_literal cv (f.data.length + 1) f.data c hmem v hv

/-- Witness for C5 (amended) at the demoted literal `":zzz"`. -/
theorem action_literal_unrecognized_witness :
    (Token.literal ":zzz" ∈ tokenize ":zzz" [] ∧ (":zzz" : String) = ":" ++ "zzz") ∧
      tokenFromString "zzz" [] = none :=
  ⟨⟨by decide, by decide⟩,
    action_literal_unrecognized ":zzz" [] ":zzz" (by decide) "zzz" (by decide)⟩

/-- C6: an action candidate that never matches — either because nothing
matches (`":zzz"`) or because the input ends first (`":ba"`) — is demoted
to one `Literal` of the trigger plus the whole candidate. -/
theorem unresolved_action_fallback :
    tokenize ":zzz" [] = [Token.literal ":zzz"] ∧
      tokenize ":ba" [] = [Token.literal ":ba"] := by decide

/-- C7: the bar arm of `Token.print` realizes the formula of the spec
(completed fill of `width_complete - 1` floored at zero, head glyph,
incomplete fill of `width - width_complete`), and at width ten it renders
zero completed glyphs at fraction zero and nine completed glyphs, the head
and no incomplete glyphs at fraction one. -/
theorem bar_rendering_bounds :
    (∀ b : BarState, (Token.bar.print b).1 =
        b.start ++ strRepeat b.complete (⌊b.prog * (b.width : ℚ)⌋₊ - 1) ++ b.head
          ++ strRepeat b.incomplete (b.width - ⌊b.prog * (b.width : ℚ)⌋₊) ++ b.endCap) ∧
    (∀ b : BarState, b.width = 10 → b.prog = 0 →
        (Token.bar.print b).1 =
          b.start ++ strRepeat b.complete 0 ++ b.head
            ++ strRepeat b.incomplete 10 ++ b.endCap) ∧
    (∀ b : BarState, b.width = 10 → b.prog = 1 →
        (Token.bar.print b).1 =
          b.start ++ strRepeat b.complete 9 ++ b.head
            ++ strRepeat b.incomplete 0 ++ b.endCap) := by
  refine ⟨barPrint_formula, ?_, ?_⟩
  · intro b hw hp
    rw [barPrint_formula b, hw, hp]
    norm_num
  · intro b hw hp
    rw [barPrint_formula b, hw, hp]
    norm_num

/-- Witness for C7 at zero and full progress on a ten-wide bar. -/
theorem bar_rendering_bounds_witness :
    (Token.bar.print sampleBar0).1 =
        sampleBar0.start ++ strRepeat sampleBar0.complete 0 ++ sampleBar0.head
          ++ strRepeat sampleBar0.incomplete 10 ++ sampleBar0.endCap ∧
      (Token.bar.print sampleBar1).1 =
        sampleBar1.start ++ strRepeat sampleBar1.complete 9 ++ sampleBar1.head
          ++ strRepeat sampleBar1.incomplete 0 ++ sampleBar1.endCap :=
  ⟨bar_rendering_bounds.2.1 sampleBar0 rfl (by decide),
    bar_rendering_bounds.2.2 sampleBar1 rfl (by decide)⟩

/-- C8: the percent token renders fraction-complete times one hundred with
one decimal place and a trailing percent sign; at fraction `0.2567` the
output is `"25.7%"`. -/
theorem percent_one_decimal :
    (∀ b : BarState, (Token.percent.print b).1 = formatF1 (b.prog * 100) ++ "%") ∧
      (Token.percent.print samplePercent).1 = "25.7%" :=
  ⟨fun _ => rfl, by decide⟩

/-- C9: tokenization and rendering are pure functions of their inputs, so
two evaluations on the same format string, custom-verb list, token
sequence and state snapshot agree. -/
theorem tokenize_render_deterministic (f : String) (cv : List String)
    (ts : List Token) (b : BarState) :
    tokenize f cv = tokenize f cv ∧ renderTokens ts b = renderTokens ts b :=
  ⟨rfl, rfl⟩

/-- C10: a second trigger right after the first is consumed as the first
candidate rune, the candidate can then never match, and the whole sequence
is demoted: `"::bar"` gives `[Literal "::bar"]` and `"::"` gives
`[Literal "::"]`. -/
theorem double_trigger_mechanical :
    tokenize "::bar" [] = [Token.literal "::bar"] ∧
      tokenize "::" [] = [Token.literal "::"] := by decide

end ClaimTheorems

end Bar
